import Mathlib

/-!
# Verification of the femto-riscv-demo-rust startup code

Shallow embedding of the two RISC-V startup variants of the repository
(`src/main.rs` and `steps/step9.rs`) and of the entry function, together
with proofs about the register-clearing, data-copy, bss-zeroing, polling
and halting behaviour described in the specification.

The assembly in both files is a straight transcription:

* `src/main.rs` `_start`: 27 `li` instructions clearing tp, t0-t6,
  s1-s11, a0-a7; then `la sp, _stack_start`, `mv fp, sp`,
  `jal _start_rust`.
* `steps/step9.rs` `_start`: `la gp, __global_pointer$`,
  `la sp, _stack_start`, `mv fp, sp`, the data-copy loop
  (`lw/sw/addi/addi` with `beq`/`bne` on t1 vs t2), the bss zero-fill
  loop (`sw zero/addi` with `beq`/`bne` on t1 vs t2), the same 27 `li`
  instructions, then `jal _start_rust`.

Registers hold 32-bit values: every register write is reduced modulo
`wordMod = 2^32`, matching RV32 wrap-around semantics of `addi`.
`x0`/`zero` is hard-wired to zero in the ISA and is therefore not part
of the register file; the `sw zero, 0(t1)` operand is modelled as the
literal value `0`.
-/

namespace FemtoRV

/-- The RV32 general-purpose registers named by the two startup files
(`zero`/`x0` is hard-wired and omitted; `fp` is the ABI name of `s0`). -/
inductive RV where
  | ra | sp | gp | tp
  | t0 | t1 | t2
  | fp
  | s1 | s2 | s3 | s4 | s5 | s6 | s7 | s8 | s9 | s10 | s11
  | a0 | a1 | a2 | a3 | a4 | a5 | a6 | a7
  | t3 | t4 | t5 | t6
deriving DecidableEq, Repr

/-- Modulus of a 32-bit register: 2^32. -/
def wordMod : Nat := 4294967296

/-- Machine state: the register file and word-addressed memory
(each cell holds the 32-bit word stored at that byte address). -/
structure Mach where
  regs : RV → Nat
  mem : Nat → Nat

/-- Write a 32-bit value to a register (wraps modulo 2^32). -/
def setReg (r : RV) (v : Nat) (s : Mach) : Mach :=
  { s with regs := fun q => if q = r then v % wordMod else s.regs q }

/-- Store a word at a byte address (`sw`). -/
def setMem (a v : Nat) (s : Mach) : Mach :=
  { s with mem := fun b => if b = a then v else s.mem b }

/-- The block of 27 `li ..., 0` instructions shared verbatim by the two
startup files: clears tp, t0-t6, s1-s11, a0-a7, in source order. -/
def clearRegs (s : Mach) : Mach :=
  s |> setReg .tp 0 |> setReg .t0 0 |> setReg .t1 0 |> setReg .t2 0
    |> setReg .t3 0 |> setReg .t4 0 |> setReg .t5 0 |> setReg .t6 0
    |> setReg .s1 0 |> setReg .s2 0 |> setReg .s3 0 |> setReg .s4 0
    |> setReg .s5 0 |> setReg .s6 0 |> setReg .s7 0 |> setReg .s8 0
    |> setReg .s9 0 |> setReg .s10 0 |> setReg .s11 0
    |> setReg .a0 0 |> setReg .a1 0 |> setReg .a2 0 |> setReg .a3 0
    |> setReg .a4 0 |> setReg .a5 0 |> setReg .a6 0 |> setReg .a7 0

/-- The registers cleared by the `li` block. -/
def clearedList : List RV :=
  [.tp, .t0, .t1, .t2, .t3, .t4, .t5, .t6,
   .s1, .s2, .s3, .s4, .s5, .s6, .s7, .s8, .s9, .s10, .s11,
   .a0, .a1, .a2, .a3, .a4, .a5, .a6, .a7]

/-- Body of the step9 data-copy loop:
`lw t3, 0(t0); sw t3, 0(t1); addi t0, t0, 4; addi t1, t1, 4`. -/
def dataLoopBody (s : Mach) : Mach :=
  let s1 := setReg .t3 (s.mem (s.regs .t0)) s
  let s2 := setMem (s1.regs .t1) (s1.regs .t3) s1
  let s3 := setReg .t0 (s2.regs .t0 + 4) s2
  setReg .t1 (s3.regs .t1 + 4) s3

/-- The step9 data-copy loop (`beq t1, t2, 101f` guard plus the
`bne t1, t2, 100b` back-edge: it runs the body while `t1 ≠ t2`).
Fuel-indexed; also returns the number of iterations performed,
each iteration executing exactly one `lw` and one `sw`. -/
def dataLoop : Nat → Mach → Option (Mach × Nat)
  | fuel, s =>
    if s.regs .t1 = s.regs .t2 then some (s, 0)
    else
      match fuel with
      | 0 => none
      | n + 1 => (dataLoop n (dataLoopBody s)).map fun p => (p.1, p.2 + 1)

/-- Body of the step9 bss zero-fill loop:
`sw zero, 0(t1); addi t1, t1, 4` (the `zero` operand is x0, always 0). -/
def bssLoopBody (s : Mach) : Mach :=
  let s1 := setMem (s.regs .t1) 0 s
  setReg .t1 (s1.regs .t1 + 4) s1

/-- The step9 bss zero-fill loop (`beq t1, t2, 201f` guard plus
`bne t1, t2, 200b` back-edge). Fuel-indexed; also returns the number of
iterations performed, each iteration executing exactly one word store. -/
def bssLoop : Nat → Mach → Option (Mach × Nat)
  | fuel, s =>
    if s.regs .t1 = s.regs .t2 then some (s, 0)
    else
      match fuel with
      | 0 => none
      | n + 1 => (bssLoop n (bssLoopBody s)).map fun p => (p.1, p.2 + 1)

/-- The linker-provided symbols consumed by the startup code, plus the
return address deposited in `ra` by the final `jal`. -/
structure LinkEnv where
  stack_top : Nat
  global_ptr : Nat
  sidata : Nat
  sdata : Nat
  edata : Nat
  sbss : Nat
  ebss : Nat
  retAddr : Nat

/-- The `_start` of `src/main.rs`: clear the 27 registers, then
`la sp, _stack_start`, `mv fp, sp`, `jal _start_rust` (the `jal`
writes the return address into `ra`). -/
def mainStart (env : LinkEnv) (s : Mach) : Mach :=
  let s1 := clearRegs s
  let s2 := setReg .sp env.stack_top s1
  let s3 := setReg .fp (s2.regs .sp) s2
  setReg .ra env.retAddr s3

/-- The `_start` of `steps/step9.rs`: `la gp, __global_pointer$`,
`la sp, _stack_start`, `mv fp, sp`, load the data-region cursors into
t0/t1/t2 and run the copy loop, load the bss cursors into t1/t2 and run
the zero-fill loop, clear the 27 registers, `jal _start_rust`. -/
def step9Start (env : LinkEnv) (fuel : Nat) (s : Mach) : Option Mach :=
  let s1 := setReg .gp env.global_ptr s
  let s2 := setReg .sp env.stack_top s1
  let s3 := setReg .fp (s2.regs .sp) s2
  let s4 := setReg .t0 env.sidata s3
  let s5 := setReg .t1 env.sdata s4
  let s6 := setReg .t2 env.edata s5
  match dataLoop fuel s6 with
  | none => none
  | some p =>
    let s7 := setReg .t1 env.sbss p.1
    let s8 := setReg .t2 env.ebss s7
    match bssLoop fuel s8 with
    | none => none
    | some q => some (setReg .ra env.retAddr (clearRegs q.1))

/-!
## Entry function (`src/main.rs`, `fn start`)

The entry function busy-polls the 2-byte status register at `0x400010`
with volatile reads until one yields a non-zero value, re-reads the
status register, narrows the re-read value to a byte (`as u8`), writes
it to the 1-byte data register at `0x400008`, and calls `panic!()`.

A device behaviour is a stream `f : Nat → Nat` giving the value
returned by the `k`-th volatile status read (0-based); as the register
is 16 bits wide, every read value is reduced modulo 65536. The
observable behaviour is the list of volatile accesses, in order.
-/

/-- Address of the write-only 1-byte data register (`uat_write`). -/
def uat_write : Nat := 0x400008

/-- Address of the read-only 2-byte status register (`uat_stat`). -/
def uat_stat : Nat := 0x400010

/-- A volatile memory-mapped access: a read observing a value, or a
write of a value, each at an address. -/
inductive Ev where
  | read (addr v : Nat)
  | write (addr v : Nat)
deriving DecidableEq, Repr

/-- Whether an access is a write. -/
def isWrite : Ev → Bool
  | .write _ _ => true
  | .read _ _ => false

/-- Whether an access is a read. -/
def isRead : Ev → Bool
  | .read _ _ => true
  | .write _ _ => false

/-- Number of volatile writes in a trace. -/
def countWrites (l : List Ev) : Nat := l.countP isWrite

/-- Number of volatile reads in a trace. -/
def countReads (l : List Ev) : Nat := l.countP isRead

/-- The busy-poll loop
`loop { if read_volatile(uat_stat) != 0 { break; } }`:
each iteration performs one volatile status read; the loop exits after
the first read that observes a non-zero value. Fuel-indexed; returns
the read events of the loop in order together with the index of the
terminating (non-zero) read. -/
def pollLoop (f : Nat → Nat) : Nat → Nat → Option (List Ev × Nat)
  | fuel, i =>
    if f i % 65536 = 0 then
      match fuel with
      | 0 => none
      | n + 1 => (pollLoop f n (i + 1)).map fun r =>
          (Ev.read uat_stat (f i % 65536) :: r.1, r.2)
    else some ([Ev.read uat_stat (f i % 65536)], i)

/-- Volatile-access trace of the entry function up to its `panic!()`:
the poll loop's reads, then the fresh re-read
`let b = read_volatile(uat_stat) as u8`, then the volatile write of
`b` to the data register. `none` when the poll loop is still running
after `fuel` iterations. -/
def startEvents (f : Nat → Nat) (fuel : Nat) : Option (List Ev) :=
  (pollLoop f fuel 0).map fun r =>
    r.1 ++ [Ev.read uat_stat (f (r.2 + 1) % 65536),
            Ev.write uat_write (f (r.2 + 1) % 65536 % 256)]

/-!
## Fatal halt (`#[panic_handler] fn panic`, identical in both files)

The panic handler is `loop {}`: an unconditional infinite loop with an
empty body. `panicReturns n` is whether the loop has exited within `n`
iterations; `panicEvents n` is the list of volatile accesses its first
`n` iterations perform (the body contains no instruction at all).
-/

/-- Whether `loop {}` has exited within `n` iterations (the body has no
`break`, so each iteration just continues). -/
def panicReturns : Nat → Bool
  | 0 => false
  | n + 1 => panicReturns n

/-- Volatile accesses performed by `n` iterations of `loop {}` (the
empty body contributes none). -/
def panicEvents : Nat → List Ev
  | 0 => []
  | n + 1 => [] ++ panicEvents n

/-!
## Syntactic transcription of the two `_start` assembly blocks

Used for the purely structural claims (step ordering, absence of
stack-pointer-relative memory accesses before `sp` is loaded). Labels
are kept as markers; `.option push/norelax/pop` are assembler
directives with no runtime effect and are not instructions.
-/

/-- The linker symbols referenced by `la`, and the `jal` target. -/
inductive Sym where
  | stack_start | global_pointer | sidata | sdata | edata | sbss | ebss
  | start_rust
deriving DecidableEq, Repr

/-- The local labels of `steps/step9.rs`. -/
inductive Lbl where
  | l100 | l101 | l200 | l201
deriving DecidableEq, Repr

/-- The assembly instructions appearing in the two startup files.
`sw0` is `sw zero, off(base)` (store of the hard-wired x0). -/
inductive Instr where
  | li (rd : RV) (imm : Nat)
  | la (rd : RV) (s : Sym)
  | mv (rd rs : RV)
  | lw (rd : RV) (off : Nat) (base : RV)
  | sw (rs2 : RV) (off : Nat) (base : RV)
  | sw0 (off : Nat) (base : RV)
  | addi (rd rs : RV) (imm : Nat)
  | beq (r1 r2 : RV) (t : Lbl)
  | bne (r1 r2 : RV) (t : Lbl)
  | lbl (l : Lbl)
  | jal (t : Sym)
deriving DecidableEq, Repr

/-- The `_start` of `src/main.rs`, instruction by instruction. -/
def mainProgAsm : List Instr :=
  [.li .tp 0, .li .t0 0, .li .t1 0, .li .t2 0, .li .t3 0, .li .t4 0,
   .li .t5 0, .li .t6 0, .li .s1 0, .li .s2 0, .li .s3 0, .li .s4 0,
   .li .s5 0, .li .s6 0, .li .s7 0, .li .s8 0, .li .s9 0, .li .s10 0,
   .li .s11 0, .li .a0 0, .li .a1 0, .li .a2 0, .li .a3 0, .li .a4 0,
   .li .a5 0, .li .a6 0, .li .a7 0,
   .la .sp .stack_start, .mv .fp .sp, .jal .start_rust]

/-- The `_start` of `steps/step9.rs`, instruction by instruction. -/
def step9ProgAsm : List Instr :=
  [.la .gp .global_pointer,
   .la .sp .stack_start, .mv .fp .sp,
   .la .t0 .sidata, .la .t1 .sdata, .la .t2 .edata,
   .beq .t1 .t2 .l101,
   .lbl .l100,
   .lw .t3 0 .t0, .sw .t3 0 .t1, .addi .t0 .t0 4, .addi .t1 .t1 4,
   .bne .t1 .t2 .l100,
   .lbl .l101,
   .la .t1 .sbss, .la .t2 .ebss,
   .beq .t1 .t2 .l201,
   .lbl .l200,
   .sw0 0 .t1, .addi .t1 .t1 4,
   .bne .t1 .t2 .l200,
   .lbl .l201,
   .li .tp 0, .li .t0 0, .li .t1 0, .li .t2 0, .li .t3 0, .li .t4 0,
   .li .t5 0, .li .t6 0, .li .s1 0, .li .s2 0, .li .s3 0, .li .s4 0,
   .li .s5 0, .li .s6 0, .li .s7 0, .li .s8 0, .li .s9 0, .li .s10 0,
   .li .s11 0, .li .a0 0, .li .a1 0, .li .a2 0, .li .a3 0, .li .a4 0,
   .li .a5 0, .li .a6 0, .li .a7 0,
   .jal .start_rust]

/-- Whether an instruction writes the stack pointer. -/
def setsSp : Instr → Bool
  | .li rd _ => rd = .sp
  | .la rd _ => rd = .sp
  | .mv rd _ => rd = .sp
  | .addi rd _ _ => rd = .sp
  | _ => false

/-- Whether an instruction performs a memory access through the stack
pointer (a load or store with base register `sp`; `jal` writes only
`ra` and touches no memory in RV32I, and no `jalr`/return occurs in
either program). -/
def usesSpMem : Instr → Bool
  | .lw _ _ base => base = .sp
  | .sw _ _ base => base = .sp
  | .sw0 _ base => base = .sp
  | _ => false

/-- The conceptual startup steps named by the specification. -/
inductive StepKind where
  | setGP | setSP | setFP | copyData | zeroBss | clearRegsStep | jump
deriving DecidableEq, Repr

/-- Classify an instruction by the startup step it belongs to. The
region-bound loads (`la` of `_sidata`/`_sdata`/`_edata`, resp.
`_sbss`/`_ebss`) mark the copy resp. zero-fill steps; the loop bodies,
branches and labels carry no separate marker. -/
def stepKind : Instr → Option StepKind
  | .la .gp .global_pointer => some .setGP
  | .la .sp .stack_start => some .setSP
  | .mv .fp .sp => some .setFP
  | .la _ .sidata => some .copyData
  | .la _ .sdata => some .copyData
  | .la _ .edata => some .copyData
  | .la _ .sbss => some .zeroBss
  | .la _ .ebss => some .zeroBss
  | .li _ 0 => some .clearRegsStep
  | .jal _ => some .jump
  | _ => none

/-- Collapse consecutive duplicates. -/
def squeeze : List StepKind → List StepKind
  | [] => []
  | [a] => [a]
  | a :: b :: rest =>
    if a = b then squeeze (b :: rest) else a :: squeeze (b :: rest)

/-- The order in which a program performs the startup steps. -/
def stepOrderOf (p : List Instr) : List StepKind :=
  squeeze (p.filterMap stepKind)

/-- The mandatory step order stated by the specification. -/
def mandatoryOrder : List StepKind :=
  [.setGP, .setSP, .setFP, .copyData, .zeroBss, .clearRegsStep, .jump]

/-!
## Termination predicates and concrete inputs
-/

/-- The bss zero-fill loop terminates from state `s` (for some fuel). -/
def bssTerminates (s : Mach) : Prop :=
  ∃ fuel p, bssLoop fuel s = some p

/-- The data-copy loop terminates from state `s` (for some fuel). -/
def dataTerminates (s : Mach) : Prop :=
  ∃ fuel p, dataLoop fuel s = some p

/-- Device stream of the C2 scenario: status reads yield 0, 0, 1, then
0x5A on every later read. -/
def devC2 : Nat → Nat :=
  fun k => if k < 2 then 0 else if k = 2 then 1 else 0x5A

/-- Device stream of the C6 scenario: status reads yield 0, 0, 0, then
1 on every later read. -/
def devC6 : Nat → Nat :=
  fun k => if k < 3 then 0 else 1

/-- Device stream whose status changes between the loop-terminating
read (value 7) and the re-read (value 0). -/
def devC9 : Nat → Nat :=
  fun k => if k = 0 then 7 else 0

/-- A reset-time register file with every register holding 7, memory
all zero. -/
def mAll7 : Mach := ⟨fun _ => 7, fun _ => 0⟩

/-- A concrete linker environment with empty data and bss regions. -/
def env0 : LinkEnv := ⟨4096, 2048, 0, 0, 0, 0, 0, 8⟩

/-- Concrete data-copy state: t0 (load cursor) 100, t1 (run cursor)
200, t2 (run end) 208 — a two-word region; memory holds its own
address at every cell. -/
def sC3 : Mach :=
  ⟨fun r => if r = RV.t0 then 100 else if r = RV.t1 then 200
    else if r = RV.t2 then 208 else 0, fun a => a⟩

/-- Concrete bss state: t1 (cursor) 0, t2 (end) 16 — a 16-byte
region; memory holds 9 everywhere. -/
def sC4 : Mach :=
  ⟨fun r => if r = RV.t1 then 0 else if r = RV.t2 then 16 else 0,
   fun _ => 9⟩

/-- Concrete bss state with an empty region: t1 = t2 = 40. -/
def sC4z : Mach :=
  ⟨fun r => if r = RV.t1 then 40 else if r = RV.t2 then 40 else 0,
   fun _ => 9⟩

/-- Loop state with t1 = 0, t2 = 8 (end - begin = 8, a multiple of 4). -/
def sW1 : Mach := ⟨fun r => if r = RV.t2 then 8 else 0, fun _ => 0⟩

/-- Loop state with t1 = 0, t2 = 2 (end - begin = 2, misaligned). -/
def sW2 : Mach := ⟨fun r => if r = RV.t2 then 2 else 0, fun _ => 0⟩

/-- Loop state with t1 = 4 and t2 = 0: the end address is numerically
below the cursor. -/
def sWrap : Mach := ⟨fun r => if r = RV.t1 then 4 else 0, fun _ => 0⟩

/-- The all-zero machine state. -/
def mZero : Mach := ⟨fun _ => 0, fun _ => 0⟩

/-!
## Basic state lemmas
-/

@[simp] theorem setReg_mem (r : RV) (v : Nat) (s : Mach) :
    (setReg r v s).mem = s.mem := rfl

@[simp] theorem setMem_regs (a v : Nat) (s : Mach) :
    (setMem a v s).regs = s.regs := rfl

@[simp] theorem setReg_regs (r : RV) (v : Nat) (s : Mach) (q : RV) :
    (setReg r v s).regs q = if q = r then v % wordMod else s.regs q := rfl

@[simp] theorem setMem_mem (a v : Nat) (s : Mach) (b : Nat) :
    (setMem a v s).mem b = if b = a then v else s.mem b := rfl

theorem clearRegs_regs (s : Mach) (r : RV) :
    (clearRegs s).regs r = if r ∈ clearedList then 0 else s.regs r := by
  cases r <;> rfl

/-!
## Unfolding lemmas for the fuel-indexed loops
-/

theorem bssLoop_stop {s : Mach} (h : s.regs RV.t1 = s.regs RV.t2)
    (fuel : Nat) : bssLoop fuel s = some (s, 0) := by
  rw [bssLoop.eq_def]; simp [h]

theorem bssLoop_stuck {s : Mach} (h : ¬ s.regs RV.t1 = s.regs RV.t2) :
    bssLoop 0 s = none := by
  rw [bssLoop.eq_def]; simp [h]

theorem bssLoop_go {s : Mach} (h : ¬ s.regs RV.t1 = s.regs RV.t2)
    (n : Nat) : bssLoop (n + 1) s =
      (bssLoop n (bssLoopBody s)).map fun p => (p.1, p.2 + 1) := by
  rw [bssLoop.eq_def]; simp [h]

theorem dataLoop_stop {s : Mach} (h : s.regs RV.t1 = s.regs RV.t2)
    (fuel : Nat) : dataLoop fuel s = some (s, 0) := by
  rw [dataLoop.eq_def]; simp [h]

theorem dataLoop_stuck {s : Mach} (h : ¬ s.regs RV.t1 = s.regs RV.t2) :
    dataLoop 0 s = none := by
  rw [dataLoop.eq_def]; simp [h]

theorem dataLoop_go {s : Mach} (h : ¬ s.regs RV.t1 = s.regs RV.t2)
    (n : Nat) : dataLoop (n + 1) s =
      (dataLoop n (dataLoopBody s)).map fun p => (p.1, p.2 + 1) := by
  rw [dataLoop.eq_def]; simp [h]

/-!
## Effects of the loop bodies
-/

theorem bssLoopBody_regs (s : Mach) (r : RV) :
    (bssLoopBody s).regs r =
      if r = RV.t1 then (s.regs RV.t1 + 4) % wordMod else s.regs r := by
  simp [bssLoopBody]

theorem bssLoopBody_mem (s : Mach) (x : Nat) :
    (bssLoopBody s).mem x = if x = s.regs RV.t1 then 0 else s.mem x := by
  simp [bssLoopBody]

theorem dataLoopBody_regs (s : Mach) (r : RV) :
    (dataLoopBody s).regs r =
      if r = RV.t1 then (s.regs RV.t1 + 4) % wordMod
      else if r = RV.t0 then (s.regs RV.t0 + 4) % wordMod
      else if r = RV.t3 then s.mem (s.regs RV.t0) % wordMod
      else s.regs r := by
  cases r <;> simp [dataLoopBody]

theorem dataLoopBody_mem (s : Mach) (x : Nat) :
    (dataLoopBody s).mem x =
      if x = s.regs RV.t1 then s.mem (s.regs RV.t0) % wordMod
      else s.mem x := by
  simp [dataLoopBody]

/-!
## Register preservation through the loops
-/

theorem bssLoop_pres : ∀ (fuel : Nat) (s : Mach) (p : Mach × Nat),
    bssLoop fuel s = some p → ∀ r, r ≠ RV.t1 → p.1.regs r = s.regs r := by
  intro fuel
  induction fuel with
  | zero =>
    intro s p h r hr
    by_cases he : s.regs RV.t1 = s.regs RV.t2
    · rw [bssLoop_stop he] at h; cases h; rfl
    · rw [bssLoop_stuck he] at h; cases h
  | succ n ih =>
    intro s p h r hr
    by_cases he : s.regs RV.t1 = s.regs RV.t2
    · rw [bssLoop_stop he] at h; cases h; rfl
    · rw [bssLoop_go he] at h
      rcases Option.map_eq_some'.mp h with ⟨q, hq, hpq⟩
      cases hpq
      have hqr := ih (bssLoopBody s) q hq r hr
      simp [hqr, bssLoopBody_regs, hr]

theorem dataLoop_pres : ∀ (fuel : Nat) (s : Mach) (p : Mach × Nat),
    dataLoop fuel s = some p →
    ∀ r, r ≠ RV.t0 → r ≠ RV.t1 → r ≠ RV.t3 → p.1.regs r = s.regs r := by
  intro fuel
  induction fuel with
  | zero =>
    intro s p h r hr0 hr1 hr3
    by_cases he : s.regs RV.t1 = s.regs RV.t2
    · rw [dataLoop_stop he] at h; cases h; rfl
    · rw [dataLoop_stuck he] at h; cases h
  | succ n ih =>
    intro s p h r hr0 hr1 hr3
    by_cases he : s.regs RV.t1 = s.regs RV.t2
    · rw [dataLoop_stop he] at h; cases h; rfl
    · rw [dataLoop_go he] at h
      rcases Option.map_eq_some'.mp h with ⟨q, hq, hpq⟩
      cases hpq
      have hqr := ih (dataLoopBody s) q hq r hr0 hr1 hr3
      simp [hqr, dataLoopBody_regs, hr0, hr1, hr3]

/-!
## The halt loop spins forever with no side effect
-/

theorem panic_spin (n : Nat) : panicReturns n = false ∧ panicEvents n = [] := by
  induction n with
  | zero => exact ⟨rfl, rfl⟩
  | succ n ih => exact ⟨ih.1, by simp [panicEvents, ih.2]⟩

/-!
## Characterisation of the poll loop
-/

theorem pollLoop_out (f : Nat → Nat) : ∀ (fuel i : Nat) (evs : List Ev) (j : Nat),
    pollLoop f fuel i = some (evs, j) →
    i ≤ j ∧ f j % 65536 ≠ 0 ∧ (∀ k, i ≤ k → k < j → f k % 65536 = 0) ∧
    evs = (List.range' i (j - i + 1)).map fun k => Ev.read uat_stat (f k % 65536) := by
  intro fuel
  induction fuel with
  | zero =>
    intro i evs j h
    rw [pollLoop.eq_def] at h
    by_cases h0 : f i % 65536 = 0
    · simp [h0] at h
    · simp [h0] at h
      obtain ⟨h1, h2⟩ := h
      subst h2
      refine ⟨le_refl i, h0, fun k hk1 hk2 => absurd hk1 (by omega), ?_⟩
      simp [← h1, List.range']
  | succ n ih =>
    intro i evs j h
    rw [pollLoop.eq_def] at h
    by_cases h0 : f i % 65536 = 0
    · simp only [h0, if_pos] at h
      rcases Option.map_eq_some'.mp h with ⟨r, hr, hev⟩
      rcases r with ⟨evs9, j9⟩
      obtain ⟨hij, hnz, hzero, hevs⟩ := ih (i + 1) evs9 j9 hr
      cases hev
      refine ⟨by omega, hnz, ?_, ?_⟩
      · intro k hk1 hk2
        rcases Nat.eq_or_lt_of_le hk1 with rfl | hlt
        · exact h0
        · exact hzero k hlt hk2
      · rw [hevs]
        have harith : j9 - i + 1 = (j9 - (i + 1) + 1) + 1 := by omega
        rw [harith]
        simp [List.range'_succ, h0]
    · simp [h0] at h
      obtain ⟨h1, h2⟩ := h
      subst h2
      refine ⟨le_refl i, h0, fun k hk1 hk2 => absurd hk1 (by omega), ?_⟩
      simp [← h1, List.range']

theorem pollLoop_none (f : Nat → Nat) (hz : ∀ k, f k % 65536 = 0) :
    ∀ fuel i, pollLoop f fuel i = none := by
  intro fuel
  induction fuel with
  | zero => intro i; rw [pollLoop.eq_def]; simp [hz i]
  | succ n ih => intro i; rw [pollLoop.eq_def]; simp [hz i, ih (i + 1)]

/-!
## Exit condition and termination of the two copy loops

Both loops advance their cursor `t1` by 4 modulo 2^32 and exit exactly
when `t1` equals `t2` (a `bne`, not a bounds comparison). They
therefore terminate if and only if the end address is congruent to the
begin address modulo 4 — including by wrapping around the 32-bit
address space when the end address is numerically below the cursor.
-/

theorem bssLoop_exit : ∀ (fuel : Nat) (s : Mach) (p : Mach × Nat),
    bssLoop fuel s = some p →
    p.1.regs RV.t1 = p.1.regs RV.t2 ∧ p.1.regs RV.t2 = s.regs RV.t2 ∧
    p.1.regs RV.t1 % 4 = s.regs RV.t1 % 4 := by
  intro fuel
  induction fuel with
  | zero =>
    intro s p h
    by_cases he : s.regs RV.t1 = s.regs RV.t2
    · rw [bssLoop_stop he] at h; cases h; exact ⟨he, rfl, rfl⟩
    · rw [bssLoop_stuck he] at h; cases h
  | succ n ih =>
    intro s p h
    by_cases he : s.regs RV.t1 = s.regs RV.t2
    · rw [bssLoop_stop he] at h; cases h; exact ⟨he, rfl, rfl⟩
    · rw [bssLoop_go he] at h
      rcases Option.map_eq_some'.mp h with ⟨q, hq, hpq⟩
      cases hpq
      obtain ⟨e1, e2, e3⟩ := ih (bssLoopBody s) q hq
      refine ⟨e1, ?_, ?_⟩
      · rw [e2, bssLoopBody_regs]; simp
      · have hred : (bssLoopBody s).regs RV.t1 = (s.regs RV.t1 + 4) % wordMod := by
          rw [bssLoopBody_regs]; simp
        rw [e3, hred,
          Nat.mod_mod_of_dvd _ (by norm_num [wordMod] : (4:Nat) ∣ wordMod)]
        exact Nat.add_mod_right _ 4

theorem dataLoop_exit : ∀ (fuel : Nat) (s : Mach) (p : Mach × Nat),
    dataLoop fuel s = some p →
    p.1.regs RV.t1 = p.1.regs RV.t2 ∧ p.1.regs RV.t2 = s.regs RV.t2 ∧
    p.1.regs RV.t1 % 4 = s.regs RV.t1 % 4 := by
  intro fuel
  induction fuel with
  | zero =>
    intro s p h
    by_cases he : s.regs RV.t1 = s.regs RV.t2
    · rw [dataLoop_stop he] at h; cases h; exact ⟨he, rfl, rfl⟩
    · rw [dataLoop_stuck he] at h; cases h
  | succ n ih =>
    intro s p h
    by_cases he : s.regs RV.t1 = s.regs RV.t2
    · rw [dataLoop_stop he] at h; cases h; exact ⟨he, rfl, rfl⟩
    · rw [dataLoop_go he] at h
      rcases Option.map_eq_some'.mp h with ⟨q, hq, hpq⟩
      cases hpq
      obtain ⟨e1, e2, e3⟩ := ih (dataLoopBody s) q hq
      refine ⟨e1, ?_, ?_⟩
      · rw [e2, dataLoopBody_regs]; simp
      · have hred : (dataLoopBody s).regs RV.t1 = (s.regs RV.t1 + 4) % wordMod := by
          rw [dataLoopBody_regs]; simp
        rw [e3, hred,
          Nat.mod_mod_of_dvd _ (by norm_num [wordMod] : (4:Nat) ∣ wordMod)]
        exact Nat.add_mod_right _ 4

theorem mod4_reach (b e : Nat) (hb : b < wordMod) (he : e < wordMod)
    (h4 : b % 4 = e % 4) : ∃ n, (b + 4 * n) % wordMod = e := by
  rw [wordMod] at hb he ⊢
  rcases le_or_lt b e with hle | hlt
  · refine ⟨(e - b) / 4, ?_⟩
    have harith : b + 4 * ((e - b) / 4) = e := by omega
    rw [harith, Nat.mod_eq_of_lt he]
  · refine ⟨(e + 4294967296 - b) / 4, ?_⟩
    have harith : b + 4 * ((e + 4294967296 - b) / 4) = e + 4294967296 := by
      omega
    rw [harith, Nat.add_mod_right, Nat.mod_eq_of_lt he]

theorem bssLoop_reach : ∀ (n fuel : Nat) (s : Mach) (b : Nat),
    n ≤ fuel → s.regs RV.t1 = b → b < wordMod →
    (b + 4 * n) % wordMod = s.regs RV.t2 →
    ∃ p, bssLoop fuel s = some p := by
  intro n
  induction n with
  | zero =>
    intro fuel s b hf hb hlt hmod
    have he : s.regs RV.t1 = s.regs RV.t2 := by
      rw [hb, ← hmod]
      simp [Nat.mod_eq_of_lt hlt]
    exact ⟨(s, 0), bssLoop_stop he fuel⟩
  | succ n ih =>
    intro fuel s b hf hb hlt hmod
    by_cases he : s.regs RV.t1 = s.regs RV.t2
    · exact ⟨(s, 0), bssLoop_stop he fuel⟩
    · cases fuel with
      | zero => omega
      | succ m =>
        have hb2 : (bssLoopBody s).regs RV.t1 = (b + 4) % wordMod := by
          rw [bssLoopBody_regs]; simp [hb]
        have ht2 : (bssLoopBody s).regs RV.t2 = s.regs RV.t2 := by
          rw [bssLoopBody_regs]; simp
        have hlt2 : (b + 4) % wordMod < wordMod :=
          Nat.mod_lt _ (by norm_num [wordMod])
        have hmod2 : ((b + 4) % wordMod + 4 * n) % wordMod =
            (bssLoopBody s).regs RV.t2 := by
          rw [ht2, ← hmod, Nat.mod_add_mod]
          congr 1
          ring
        obtain ⟨p, hp⟩ :=
          ih m (bssLoopBody s) ((b + 4) % wordMod) (by omega) hb2 hlt2 hmod2
        exact ⟨(p.1, p.2 + 1), by rw [bssLoop_go he, hp]; rfl⟩

theorem dataLoop_reach : ∀ (n fuel : Nat) (s : Mach) (b : Nat),
    n ≤ fuel → s.regs RV.t1 = b → b < wordMod →
    (b + 4 * n) % wordMod = s.regs RV.t2 →
    ∃ p, dataLoop fuel s = some p := by
  intro n
  induction n with
  | zero =>
    intro fuel s b hf hb hlt hmod
    have he : s.regs RV.t1 = s.regs RV.t2 := by
      rw [hb, ← hmod]
      simp [Nat.mod_eq_of_lt hlt]
    exact ⟨(s, 0), dataLoop_stop he fuel⟩
  | succ n ih =>
    intro fuel s b hf hb hlt hmod
    by_cases he : s.regs RV.t1 = s.regs RV.t2
    · exact ⟨(s, 0), dataLoop_stop he fuel⟩
    · cases fuel with
      | zero => omega
      | succ m =>
        have hb2 : (dataLoopBody s).regs RV.t1 = (b + 4) % wordMod := by
          rw [dataLoopBody_regs]; simp [hb]
        have ht2 : (dataLoopBody s).regs RV.t2 = s.regs RV.t2 := by
          rw [dataLoopBody_regs]; simp
        have hlt2 : (b + 4) % wordMod < wordMod :=
          Nat.mod_lt _ (by norm_num [wordMod])
        have hmod2 : ((b + 4) % wordMod + 4 * n) % wordMod =
            (dataLoopBody s).regs RV.t2 := by
          rw [ht2, ← hmod, Nat.mod_add_mod]
          congr 1
          ring
        obtain ⟨p, hp⟩ :=
          ih m (dataLoopBody s) ((b + 4) % wordMod) (by omega) hb2 hlt2 hmod2
        exact ⟨(p.1, p.2 + 1), by rw [dataLoop_go he, hp]; rfl⟩

/-!
## Functional correctness of the zero-fill and copy loops
-/

theorem bssLoop_zeroes : ∀ (L fuel : Nat) (s : Mach) (b : Nat),
    L ≤ fuel → s.regs RV.t1 = b → s.regs RV.t2 = b + 4 * L →
    b + 4 * L < wordMod →
    ∃ s2, bssLoop fuel s = some (s2, L)
      ∧ (∀ i, i < L → s2.mem (b + 4 * i) = 0)
      ∧ (∀ a, (∀ j, j < L → a ≠ b + 4 * j) → s2.mem a = s.mem a)
      ∧ (L = 0 → s2 = s) := by
  intro L
  induction L with
  | zero =>
    intro fuel s b hf hb ht2 hlt
    have he : s.regs RV.t1 = s.regs RV.t2 := by rw [hb, ht2]; omega
    exact ⟨s, bssLoop_stop he fuel,
      fun i hi => absurd hi (Nat.not_lt_zero i),
      fun a _ => rfl, fun _ => rfl⟩
  | succ L ih =>
    intro fuel s b hf hb ht2 hlt
    have hne : ¬ s.regs RV.t1 = s.regs RV.t2 := by rw [hb, ht2]; omega
    cases fuel with
    | zero => omega
    | succ m =>
      have h1t1 : (bssLoopBody s).regs RV.t1 = b + 4 := by
        rw [bssLoopBody_regs]
        simp [hb, Nat.mod_eq_of_lt (show b + 4 < wordMod by omega)]
      have h1t2 : (bssLoopBody s).regs RV.t2 = (b + 4) + 4 * L := by
        rw [bssLoopBody_regs]
        simp [ht2]
        ring
      have h1mem : ∀ x, (bssLoopBody s).mem x = if x = b then 0 else s.mem x := by
        intro x
        rw [bssLoopBody_mem, hb]
      obtain ⟨s2, heq, hzero, hframe, _⟩ :=
        ih m (bssLoopBody s) (b + 4) (by omega) h1t1 h1t2 (by omega)
      refine ⟨s2, ?_, ?_, ?_, by omega⟩
      · rw [bssLoop_go hne, heq]; rfl
      · intro i hi
        cases i with
        | zero =>
          have hfr := hframe b (fun j hj => by omega)
          have : (bssLoopBody s).mem b = 0 := by rw [h1mem]; simp
          rw [show b + 4 * 0 = b by ring, hfr, this]
        | succ i =>
          have hz := hzero i (by omega)
          rw [show b + 4 * (i + 1) = (b + 4) + 4 * i by ring, hz]
      · intro a ha
        have hfr := hframe a (fun j hj => by
          have := ha (j + 1) (by omega)
          omega)
        have h0 : a ≠ b := by
          have := ha 0 (by omega)
          omega
        rw [hfr, h1mem, if_neg h0]

theorem dataLoop_copies : ∀ (n fuel : Nat) (s : Mach) (loadB runB : Nat),
    n ≤ fuel →
    s.regs RV.t0 = loadB → s.regs RV.t1 = runB →
    s.regs RV.t2 = runB + 4 * n →
    loadB + 4 * n < wordMod → runB + 4 * n < wordMod →
    (∀ i, i < n → s.mem (loadB + 4 * i) < wordMod) →
    (∀ i j, i < n → j < n → loadB + 4 * i ≠ runB + 4 * j) →
    ∃ s2, dataLoop fuel s = some (s2, n)
      ∧ (∀ i, i < n → s2.mem (runB + 4 * i) = s.mem (loadB + 4 * i))
      ∧ (∀ a, (∀ j, j < n → a ≠ runB + 4 * j) → s2.mem a = s.mem a)
      ∧ (n = 0 → s2 = s) := by
  intro n
  induction n with
  | zero =>
    intro fuel s loadB runB hf ht0 ht1 ht2 hlb hrb hmlt hdisj
    have he : s.regs RV.t1 = s.regs RV.t2 := by rw [ht1, ht2]; omega
    exact ⟨s, dataLoop_stop he fuel,
      fun i hi => absurd hi (Nat.not_lt_zero i),
      fun a _ => rfl, fun _ => rfl⟩
  | succ n ih =>
    intro fuel s loadB runB hf ht0 ht1 ht2 hlb hrb hmlt hdisj
    have hne : ¬ s.regs RV.t1 = s.regs RV.t2 := by rw [ht1, ht2]; omega
    cases fuel with
    | zero => omega
    | succ m =>
      have h1t0 : (dataLoopBody s).regs RV.t0 = loadB + 4 := by
        rw [dataLoopBody_regs]
        simp [ht0, Nat.mod_eq_of_lt (show loadB + 4 < wordMod by omega)]
      have h1t1 : (dataLoopBody s).regs RV.t1 = runB + 4 := by
        rw [dataLoopBody_regs]
        simp [ht1, Nat.mod_eq_of_lt (show runB + 4 < wordMod by omega)]
      have h1t2 : (dataLoopBody s).regs RV.t2 = (runB + 4) + 4 * n := by
        rw [dataLoopBody_regs]
        simp [ht2]
        ring
      have hl0 : s.mem loadB < wordMod := by
        have := hmlt 0 (by omega)
        simpa using this
      have h1mem : ∀ x, (dataLoopBody s).mem x =
          if x = runB then s.mem loadB else s.mem x := by
        intro x
        rw [dataLoopBody_mem, ht1, ht0, Nat.mod_eq_of_lt hl0]
      have h1mlt : ∀ i, i < n → (dataLoopBody s).mem ((loadB + 4) + 4 * i) < wordMod := by
        intro i hi
        rw [h1mem]
        split
        · exact hmlt 0 (by omega)
        · have := hmlt (i + 1) (by omega)
          have harith : loadB + 4 * (i + 1) = (loadB + 4) + 4 * i := by ring
          rwa [harith] at this
      have h1disj : ∀ i j, i < n → j < n →
          (loadB + 4) + 4 * i ≠ (runB + 4) + 4 * j := by
        intro i j hi hj
        have := hdisj (i + 1) (j + 1) (by omega) (by omega)
        omega
      obtain ⟨s2, heq, hcopy, hframe, _⟩ :=
        ih m (dataLoopBody s) (loadB + 4) (runB + 4) (by omega)
          h1t0 h1t1 h1t2 (by omega) (by omega) h1mlt h1disj
      refine ⟨s2, ?_, ?_, ?_, by omega⟩
      · rw [dataLoop_go hne, heq]; rfl
      · intro i hi
        cases i with
        | zero =>
          have hfr := hframe runB (fun j hj => by omega)
          have hb0 : (dataLoopBody s).mem runB = s.mem loadB := by
            rw [h1mem]; simp
          rw [show runB + 4 * 0 = runB by ring, hfr, hb0,
            show loadB + 4 * 0 = loadB by ring]
        | succ i =>
          have hc := hcopy i (by omega)
          have hnotrun : (loadB + 4) + 4 * i ≠ runB := by
            have := hdisj (i + 1) 0 (by omega) (by omega)
            omega
          rw [show runB + 4 * (i + 1) = (runB + 4) + 4 * i by ring, hc, h1mem,
            if_neg hnotrun, show (loadB + 4) + 4 * i = loadB + 4 * (i + 1) by ring]
      · intro a ha
        have hfr := hframe a (fun j hj => by
          have := ha (j + 1) (by omega)
          omega)
        have h0 : a ≠ runB := by
          have := ha 0 (by omega)
          omega
        rw [hfr, h1mem, if_neg h0]

/-!
## Which registers are cleared
-/

theorem mem_clearedList (r : RV) (h1 : r ≠ RV.sp) (h2 : r ≠ RV.fp)
    (h3 : r ≠ RV.ra) (h4 : r ≠ RV.gp) : r ∈ clearedList := by
  cases r <;>
    first
    | exact absurd rfl h1
    | exact absurd rfl h2
    | exact absurd rfl h3
    | exact absurd rfl h4
    | decide

/-!
## Claim theorems
-/

/-- C2, counterexample: for the device whose status reads yield 0, 0,
1 and then 0x5A forever, the entry function performs 4 volatile status
reads (3 in the poll loop plus the fresh re-read), not exactly 3 as
claimed. -/
theorem c2_counterexample :
    (startEvents devC2 2).map countReads = some 4 ∧ (4 : Nat) ≠ 3 := by
  decide

/-- C2, amended: for the device whose status reads yield 0, 0, 1 and
then 0x5A forever, the entry function performs exactly 4 volatile
status reads (3 poll-loop reads observing 0, 0, 1, then the re-read
observing 0x5A), then exactly one volatile write of the byte 0x5A to
the data register, and then enters the fatal halt, which never returns
and performs no further volatile access. -/
theorem c2_scenario :
    startEvents devC2 2 = some
      [Ev.read uat_stat 0, Ev.read uat_stat 0, Ev.read uat_stat 1,
       Ev.read uat_stat 90, Ev.write uat_write 90]
    ∧ countWrites
      [Ev.read uat_stat 0, Ev.read uat_stat 0, Ev.read uat_stat 1,
       Ev.read uat_stat 90, Ev.write uat_write 90] = 1
    ∧ (∀ n, panicReturns n = false ∧ panicEvents n = []) :=
  ⟨by decide, by decide, panic_spin⟩

/-- C5, counterexample: the `src/main.rs` startup variant does not
perform the mandatory step order — it contains no global-pointer
step, no data-copy step and no bss zero-fill step, and it clears the
general-purpose registers before loading the stack pointer. -/
theorem c5_counterexample :
    stepOrderOf mainProgAsm =
      [.clearRegsStep, .setSP, .setFP, .jump]
    ∧ stepOrderOf mainProgAsm ≠ mandatoryOrder := by
  decide

/-- C5, amended: the `steps/step9.rs` variant performs the seven
mandatory steps in exactly the specified order (global pointer, stack
pointer, frame pointer, data copy, bss zero-fill, register clear,
jump); the `src/main.rs` variant instead performs only register clear,
stack pointer, frame pointer, jump, in that order — omitting the
global-pointer, data-copy and bss steps and clearing registers before
the stack pointer is set. -/
theorem c5_step_order :
    stepOrderOf step9ProgAsm = mandatoryOrder
    ∧ stepOrderOf mainProgAsm =
      [.clearRegsStep, .setSP, .setFP, .jump] := by
  decide

/-- C7: once the fatal halt (`loop {}`, the panic handler of both
files) is entered, it never returns and performs no volatile access at
all — in particular no write to any memory-mapped address — no matter
how many iterations run. -/
theorem c7_terminal_halt (n : Nat) :
    panicReturns n = false ∧ panicEvents n = []
    ∧ countWrites (panicEvents n) = 0 := by
  refine ⟨(panic_spin n).1, (panic_spin n).2, ?_⟩
  rw [(panic_spin n).2]
  rfl

/-- C8: in both startup variants, every instruction preceding the
first write to the stack pointer performs no memory access through the
stack pointer (in fact the programs' only `sp`-setting instruction is
`la sp, _stack_start` itself, and `jal` touches neither memory nor
`sp` in RV32I). -/
theorem c8_no_stack_use_before_sp :
    ((mainProgAsm.takeWhile fun ins => ! setsSp ins).all
      fun ins => ! usesSpMem ins) = true
    ∧ ((step9ProgAsm.takeWhile fun ins => ! setsSp ins).all
      fun ins => ! usesSpMem ins) = true
    ∧ mainProgAsm.find? setsSp = some (.la .sp .stack_start)
    ∧ step9ProgAsm.find? setsSp = some (.la .sp .stack_start) := by
  decide

/-- C1, counterexample: starting from a reset state in which every
register holds 7, the `src/main.rs` reset sequence leaves the global
pointer `gp` — a general-purpose register that is neither the stack
pointer, the frame pointer, nor the link register — holding 7, not 0,
at the hand-over to the entry function. -/
theorem c1_counterexample :
    (mainStart env0 mAll7).regs RV.gp = 7 ∧ (7 : Nat) ≠ 0 := by
  decide

/-- C1, amended: after either reset sequence, every general-purpose
register other than the stack pointer, the frame pointer, the link
register `ra` and the global pointer `gp` is zero, regardless of its
reset-time content; `gp` itself keeps its reset-time value in the
`src/main.rs` variant and holds the linker's global-pointer anchor in
the `steps/step9.rs` variant. -/
theorem c1_register_clear :
    (∀ env s r, r ≠ RV.sp → r ≠ RV.fp → r ≠ RV.ra → r ≠ RV.gp →
      (mainStart env s).regs r = 0)
    ∧ (∀ env s, (mainStart env s).regs RV.gp = s.regs RV.gp)
    ∧ (∀ env fuel s s2, step9Start env fuel s = some s2 →
        (∀ r, r ≠ RV.sp → r ≠ RV.fp → r ≠ RV.ra → r ≠ RV.gp →
          s2.regs r = 0)
        ∧ s2.regs RV.gp = env.global_ptr % wordMod) := by
  refine ⟨?_, ?_, ?_⟩
  · intro env s r h1 h2 h3 h4
    have hmem := mem_clearedList r h1 h2 h3 h4
    simp [mainStart, h1, h2, h3]
    rw [clearRegs_regs, if_pos hmem]
  · intro env s
    have hgp : RV.gp ∉ clearedList := by decide
    simp [mainStart]
    rw [clearRegs_regs, if_neg hgp]
  · intro env fuel s s2 h
    simp only [step9Start] at h
    split at h
    · exact absurd h (by simp)
    · split at h
      · exact absurd h (by simp)
      · rename_i x1 p hd x2 q hb
        rw [Option.some.injEq] at h
        subst h
        have hgp : RV.gp ∉ clearedList := by decide
        have hq : q.1.regs RV.gp = env.global_ptr % wordMod := by
          rw [bssLoop_pres fuel _ q hb RV.gp (by decide)]
          simp only [setReg_regs]
          rw [dataLoop_pres fuel _ p hd RV.gp (by decide) (by decide) (by decide)]
          simp
        constructor
        · intro r h1 h2 h3 h4
          have hmem := mem_clearedList r h1 h2 h3 h4
          simp [h3]
          rw [clearRegs_regs, if_pos hmem]
        · simp
          rw [clearRegs_regs, if_neg hgp]
          exact hq

/-- C1 witness: at the concrete all-7 reset state and the empty-region
linker environment, register t5 is zero after both reset sequences. -/
theorem c1_register_clear_witness :
    (mainStart env0 mAll7).regs RV.t5 = 0
    ∧ ((step9Start env0 1 mAll7).map fun q => q.regs RV.t5) = some 0 := by
  constructor
  · exact c1_register_clear.1 env0 mAll7 RV.t5
      (by decide) (by decide) (by decide) (by decide)
  · have hsome : (step9Start env0 1 mAll7).isSome = true := by decide
    rcases hx : step9Start env0 1 mAll7 with _ | s2
    · rw [hx] at hsome; cases hsome
    · have hz := (c1_register_clear.2.2 env0 1 mAll7 s2 hx).1 RV.t5
        (by decide) (by decide) (by decide) (by decide)
      rw [Option.map_some', hz]

/-- C6: for every device behaviour, any completed entry-function trace
contains exactly one data-register write, and that write is preceded
by a status read that observed a non-zero value; if every status read
observes zero, the poll loop never exits and no write ever occurs; and
for the status sequence 0, 0, 0, 1 the poll loop performs exactly 4
reads — terminating on the 4th poll — followed by the single write. -/
theorem c6_poll_then_act :
    (∀ f fuel tr, startEvents f fuel = some tr →
      countWrites tr = 1 ∧
      ∃ l1 v l2 b, tr = l1 ++ Ev.read uat_stat v :: (l2 ++ [Ev.write uat_write b])
        ∧ v ≠ 0)
    ∧ (∀ f fuel, (∀ k, f k % 65536 = 0) → startEvents f fuel = none)
    ∧ (pollLoop devC6 5 0 = some ([Ev.read uat_stat 0, Ev.read uat_stat 0,
        Ev.read uat_stat 0, Ev.read uat_stat 1], 3)
       ∧ startEvents devC6 5 = some [Ev.read uat_stat 0, Ev.read uat_stat 0,
        Ev.read uat_stat 0, Ev.read uat_stat 1, Ev.read uat_stat 1,
        Ev.write uat_write 1]
       ∧ countWrites [Ev.read uat_stat 0, Ev.read uat_stat 0,
        Ev.read uat_stat 0, Ev.read uat_stat 1, Ev.read uat_stat 1,
        Ev.write uat_write 1] = 1) := by
  refine ⟨?_, ?_, by decide⟩
  · intro f fuel tr htr
    rcases Option.map_eq_some'.mp htr with ⟨r, hr, htr2⟩
    rcases r with ⟨evs, j⟩
    obtain ⟨hij, hnz, hzero, hevs⟩ := pollLoop_out f fuel 0 evs j hr
    subst htr2
    constructor
    · rw [countWrites, List.countP_append]
      have h0 : List.countP isWrite evs = 0 := by
        apply List.countP_eq_zero.mpr
        intro a ha
        rw [hevs] at ha
        rcases List.mem_map.mp ha with ⟨k, _, hk⟩
        rw [← hk]
        simp [isWrite]
      rw [h0]
      rfl
    · have hevs2 : evs = ((List.range' 0 j).map
          fun k => Ev.read uat_stat (f k % 65536))
          ++ [Ev.read uat_stat (f j % 65536)] := by
        rw [hevs]
        have harith : j - 0 + 1 = j + 1 := by omega
        rw [harith, List.range'_concat]
        simp
      refine ⟨(List.range' 0 j).map fun k => Ev.read uat_stat (f k % 65536),
        f j % 65536, [Ev.read uat_stat (f (j + 1) % 65536)],
        f (j + 1) % 65536 % 256, ?_, hnz⟩
      rw [hevs2]
      simp
  · intro f fuel hz
    rw [startEvents, pollLoop_none f hz]
    rfl

/-- C6 witness: for the 0, 0, 0, 1 device the completed trace contains
exactly one write, and for the all-zero device no trace is ever
completed. -/
theorem c6_poll_then_act_witness :
    countWrites [Ev.read uat_stat 0, Ev.read uat_stat 0, Ev.read uat_stat 0,
      Ev.read uat_stat 1, Ev.read uat_stat 1, Ev.write uat_write 1] = 1
    ∧ startEvents (fun _ => 0) 3 = none := by
  constructor
  · exact (c6_poll_then_act.1 devC6 5 _ (by decide)).1
  · exact c6_poll_then_act.2.1 (fun _ => 0) 3 (fun k => rfl)

/-- C9: for every device behaviour, the byte written to the data
register is the low 8 bits of the fresh status re-read performed after
the poll loop exits (read index i+1 when the loop terminated at read
index i), not of the non-zero value that terminated the loop; in
particular for the device yielding 7 then 0 forever, the loop exits on
a read of 7 but the written byte is 0. -/
theorem c9_reread_written :
    (∀ f fuel evs i, pollLoop f fuel 0 = some (evs, i) →
      startEvents f fuel = some (evs ++ [Ev.read uat_stat (f (i + 1) % 65536),
        Ev.write uat_write (f (i + 1) % 65536 % 256)])
      ∧ f i % 65536 ≠ 0 ∧ (∀ j, j < i → f j % 65536 = 0))
    ∧ startEvents devC9 0 = some [Ev.read uat_stat 7, Ev.read uat_stat 0,
        Ev.write uat_write 0]
    ∧ devC9 0 % 65536 % 256 ≠ 0 := by
  refine ⟨?_, by decide, by decide⟩
  intro f fuel evs i h
  obtain ⟨hij, hnz, hzero, _⟩ := pollLoop_out f fuel 0 evs i h
  refine ⟨?_, hnz, fun j hj => hzero j (by omega) hj⟩
  rw [startEvents, h]
  rfl

/-- C9 witness: the device yielding 7 then 0 forever produces the
trace read 7, read 0, write 0 — the written byte comes from the
re-read, not from the value that ended the loop. -/
theorem c9_reread_written_witness :
    startEvents devC9 0 = some [Ev.read uat_stat 7, Ev.read uat_stat 0,
      Ev.write uat_write 0] ∧ devC9 0 % 65536 ≠ 0 := by
  have h := c9_reread_written.1 devC9 0 [Ev.read uat_stat 7] 0 (by decide)
  exact ⟨by simpa [devC9] using h.1, h.2.1⟩

/-- C3: when the cursors hold a well-formed n-word data region (load
cursor t0 at loadB, run cursor t1 at runB, run end t2 at runB + 4n,
no address-space overflow, 32-bit memory words, load and run regions
disjoint), the copy loop completes in exactly n iterations and every
word of the run region equals the word the load region held at entry;
a zero-length region completes in 0 iterations with the state — in
particular the memory — unchanged. -/
theorem c3_faithful_relocation (n fuel : Nat) (s : Mach) (loadB runB : Nat)
    (hfuel : n ≤ fuel)
    (ht0 : s.regs RV.t0 = loadB) (ht1 : s.regs RV.t1 = runB)
    (ht2 : s.regs RV.t2 = runB + 4 * n)
    (hlb : loadB + 4 * n < wordMod) (hrb : runB + 4 * n < wordMod)
    (hmlt : ∀ i, i < n → s.mem (loadB + 4 * i) < wordMod)
    (hdisj : ∀ i j, i < n → j < n → loadB + 4 * i ≠ runB + 4 * j) :
    (∃ s2, dataLoop fuel s = some (s2, n)
      ∧ ∀ i, i < n → s2.mem (runB + 4 * i) = s.mem (loadB + 4 * i))
    ∧ (n = 0 → dataLoop fuel s = some (s, 0)) := by
  obtain ⟨s2, heq, hcopy, _, hzlen⟩ :=
    dataLoop_copies n fuel s loadB runB hfuel ht0 ht1 ht2 hlb hrb hmlt hdisj
  refine ⟨⟨s2, heq, hcopy⟩, fun h0 => ?_⟩
  rw [heq, hzlen h0, h0]

/-- C3 witness: copying the two-word region at load address 100 to run
address 200 makes run words 200 and 204 equal to the entry-time load
words (100 and 104 here, as memory held its own address), in exactly 2
iterations. -/
theorem c3_faithful_relocation_witness :
    ((dataLoop 2 sC3).map fun p => (p.1.mem 200, p.1.mem 204, p.2)) =
      some (100, 104, 2) := by
  obtain ⟨⟨s2, heq, hcopy⟩, _⟩ := c3_faithful_relocation 2 2 sC3 100 200
    (le_refl 2) (by decide) (by decide) (by decide) (by decide) (by decide)
    (by decide) (by intro i j hi hj; omega)
  have h0 := hcopy 0 (by omega)
  have h1 := hcopy 1 (by omega)
  norm_num [sC3] at h0 h1
  rw [heq, Option.map_some', h0, h1]

/-- C4: when the cursors hold a well-formed L-word bss region (cursor
t1 at b, end t2 at b + 4L, no address-space overflow), the zero-fill
loop completes in exactly L iterations — one word store per
iteration — after which every word of the region reads as zero; an
empty region (L = 0) completes in 0 iterations with the state — in
particular the memory — unchanged, performing no store at all. A
16-byte region is L = 4 words, hence exactly 4 word stores. -/
theorem c4_idempotent_zeroing (L fuel : Nat) (s : Mach) (b : Nat)
    (hfuel : L ≤ fuel) (ht1 : s.regs RV.t1 = b)
    (ht2 : s.regs RV.t2 = b + 4 * L) (hlt : b + 4 * L < wordMod) :
    (∃ s2, bssLoop fuel s = some (s2, L)
      ∧ ∀ i, i < L → s2.mem (b + 4 * i) = 0)
    ∧ (L = 0 → bssLoop fuel s = some (s, 0)) := by
  obtain ⟨s2, heq, hzero, _, hzlen⟩ :=
    bssLoop_zeroes L fuel s b hfuel ht1 ht2 hlt
  refine ⟨⟨s2, heq, hzero⟩, fun h0 => ?_⟩
  rw [heq, hzlen h0, h0]

/-- C4 witness: zero-filling the 16-byte region at address 0 performs
exactly 4 word stores and leaves words 0, 4, 8, 12 zero (they held 9
at entry), and the empty region at t1 = t2 = 40 performs 0 iterations
and leaves the state untouched. -/
theorem c4_idempotent_zeroing_witness :
    ((bssLoop 4 sC4).map fun p =>
      (p.1.mem 0, p.1.mem 4, p.1.mem 8, p.1.mem 12, p.2)) =
      some (0, 0, 0, 0, 4)
    ∧ bssLoop 4 sC4z = some (sC4z, 0) := by
  constructor
  · obtain ⟨⟨s2, heq, hz⟩, _⟩ := c4_idempotent_zeroing 4 4 sC4 0
      (le_refl 4) (by decide) (by decide) (by decide)
    have h0 := hz 0 (by omega)
    have h1 := hz 1 (by omega)
    have h2 := hz 2 (by omega)
    have h3 := hz 3 (by omega)
    norm_num at h0 h1 h2 h3
    rw [heq, Option.map_some', h0, h1, h2, h3]
  · exact (c4_idempotent_zeroing 0 4 sC4z 40 (by omega) (by decide)
      (by decide) (by decide)).2 rfl

/-- C10, counterexample: the zero-fill loop started with cursor t1 = 4
and end t2 = 0 terminates (its cursor wraps around the 32-bit address
space and eventually equals the end address), although the end address
minus the begin address is negative — so termination does not require
the claimed non-negative span. -/
theorem c10_counterexample :
    (bssLoop 1073741823 sWrap).isSome = true
    ∧ ¬ (sWrap.regs RV.t1 ≤ sWrap.regs RV.t2) := by
  constructor
  · obtain ⟨p, hp⟩ := bssLoop_reach 1073741823 1073741823 sWrap 4
      (le_refl 1073741823) (by decide) (by decide) (by decide)
    rw [hp]
    rfl
  · decide

/-- C10, amended: both loops exit exactly when the advancing cursor t1
equals the end address t2 (an inequality test, not a less-than test);
consequently each loop terminates if and only if the end address is
congruent to the begin address modulo 4 — which, absent 32-bit
wrap-around (begin ≤ end), is precisely the condition that end minus
begin is a non-negative multiple of 4. -/
theorem c10_loop_exit :
    (∀ fuel s p, bssLoop fuel s = some p →
      p.1.regs RV.t1 = p.1.regs RV.t2)
    ∧ (∀ fuel s p, dataLoop fuel s = some p →
      p.1.regs RV.t1 = p.1.regs RV.t2)
    ∧ (∀ s, s.regs RV.t1 < wordMod → s.regs RV.t2 < wordMod →
        (bssTerminates s ↔ s.regs RV.t1 % 4 = s.regs RV.t2 % 4))
    ∧ (∀ s, s.regs RV.t1 < wordMod → s.regs RV.t2 < wordMod →
        (dataTerminates s ↔ s.regs RV.t1 % 4 = s.regs RV.t2 % 4)) := by
  refine ⟨fun fuel s p h => (bssLoop_exit fuel s p h).1,
    fun fuel s p h => (dataLoop_exit fuel s p h).1, ?_, ?_⟩
  · intro s h1 h2
    constructor
    · rintro ⟨fuel, p, hp⟩
      obtain ⟨e1, e2, e3⟩ := bssLoop_exit fuel s p hp
      rw [← e3, e1, e2]
    · intro h4
      obtain ⟨n, hn⟩ := mod4_reach (s.regs RV.t1) (s.regs RV.t2) h1 h2 h4
      obtain ⟨p, hp⟩ := bssLoop_reach n n s (s.regs RV.t1) (le_refl n) rfl h1 hn
      exact ⟨n, p, hp⟩
  · intro s h1 h2
    constructor
    · rintro ⟨fuel, p, hp⟩
      obtain ⟨e1, e2, e3⟩ := dataLoop_exit fuel s p hp
      rw [← e3, e1, e2]
    · intro h4
      obtain ⟨n, hn⟩ := mod4_reach (s.regs RV.t1) (s.regs RV.t2) h1 h2 h4
      obtain ⟨p, hp⟩ := dataLoop_reach n n s (s.regs RV.t1) (le_refl n) rfl h1 hn
      exact ⟨n, p, hp⟩

/-- C10 witness: the loops terminate from the aligned state (t1 = 0,
t2 = 8) and do not terminate from the misaligned state (t1 = 0,
t2 = 2); a loop that has already exited has cursor equal to the end
address. -/
theorem c10_loop_exit_witness :
    (bssTerminates sW1 ∧ ¬ bssTerminates sW2)
    ∧ (dataTerminates sW1 ∧ ¬ dataTerminates sW2)
    ∧ mZero.regs RV.t1 = mZero.regs RV.t2 := by
  refine ⟨⟨?_, ?_⟩, ⟨?_, ?_⟩, ?_⟩
  · exact (c10_loop_exit.2.2.1 sW1 (by decide) (by decide)).mpr (by decide)
  · intro ht
    exact absurd ((c10_loop_exit.2.2.1 sW2 (by decide) (by decide)).mp ht)
      (by decide)
  · exact (c10_loop_exit.2.2.2 sW1 (by decide) (by decide)).mpr (by decide)
  · intro ht
    exact absurd ((c10_loop_exit.2.2.2 sW2 (by decide) (by decide)).mp ht)
      (by decide)
  · exact c10_loop_exit.1 1 mZero (mZero, 0) rfl
end FemtoRV
